import Mathlib

/-!
Verification development for the EssayBot grading and RAG-indexing pipeline
(files `script.py` and `rag_pipeline.py`).

The Python source is shallowly embedded: pure string manipulation is
translated to executable Lean functions on `String` and `List Char`;
the external pieces (the HTTP generation service, the HuggingFace
embedding model, FAISS similarity search, the filesystem) are modelled
as explicit parameters or oracles.  Python's `json.loads` / `json.dumps`
are modelled by an executable parser and serializer over a `Json` AST;
numbers are modelled as arbitrary-precision integers (float literals,
`NaN`/`Infinity` extensions, `\uXXXX` surrogate pairing and `ensure_ascii`
output escaping of the Python implementation are outside the scope of
this embedding, and duplicate object keys are kept rather than deduplicated).
-/

namespace EssayBot

/-- Python whitespace for `str.strip` and the regex class `\s` (ASCII range). -/
def isPyWs (c : Char) : Bool :=
  c = ' ' || c = '\t' || c = '\n' || c = '\r' || c = '\x0b' || c = '\x0c'

/-- Characters treated as whitespace by the JSON grammar (`json.loads`). -/
def isJsonWs (c : Char) : Bool :=
  c = ' ' || c = '\t' || c = '\n' || c = '\r'

/-- Model of Python `str.strip()` on the character list. -/
def pyStripChars (cs : List Char) : List Char :=
  ((cs.dropWhile isPyWs).reverse.dropWhile isPyWs).reverse

/-- Model of Python `str.strip()`. -/
def pyStrip (s : String) : String :=
  String.mk (pyStripChars s.data)

/-- Model of Python `str.lower()` (ASCII letters; the source only compares
ASCII keywords). -/
def pyLower (s : String) : String :=
  String.mk (s.data.map Char.toLower)

/-- Containment of `needle` in `hay` as a list scan, Python's `needle in hay`. -/
def listContainsSub (hay needle : List Char) : Bool :=
  match hay with
  | [] => needle.isEmpty
  | _ :: t => needle.isPrefixOf hay || listContainsSub t needle

/-- Model of Python's substring test `needle in hay`. -/
def pyContains (hay needle : String) : Bool :=
  listContainsSub hay.data needle.data

/-- JSON values as produced by Python's `json` module (integer numbers only). -/
inductive Json where
  | null : Json
  | bool (b : Bool) : Json
  | num (n : Int) : Json
  | str (s : String) : Json
  | arr (elems : List Json) : Json
  | obj (members : List (String × Json)) : Json

/-- Decimal digit character of `n < 10`. -/
def digitChar (n : Nat) : Char :=
  Char.ofNat (48 + n)

/-- Decimal digits with an explicit recursion budget (any budget above the
argument is enough, since dividing by ten strictly decreases). -/
def natCharsAux : Nat → Nat → List Char
  | 0, _ => []
  | fuel + 1, n =>
      if n < 10 then [digitChar n]
      else natCharsAux fuel (n / 10) ++ [digitChar (n % 10)]

/-- Decimal digits of a natural number, most significant first (`"0"` for 0). -/
def natChars (n : Nat) : List Char :=
  natCharsAux (n + 1) n

/-- Hexadecimal digit character of `n < 16` (lower case, as `json.dumps` emits). -/
def hexDigitChar (n : Nat) : Char :=
  if n < 10 then Char.ofNat (48 + n) else Char.ofNat (87 + n)

/-- Escape of one character inside a JSON string literal, following
`json.dumps`: quote, backslash and the named control escapes, then a
`\u00XX` escape for the remaining control characters, other characters
unchanged. -/
def escapeChar (c : Char) : List Char :=
  if c = '"' then ['\\', '"']
  else if c = '\\' then ['\\', '\\']
  else if c = '\n' then ['\\', 'n']
  else if c = '\t' then ['\\', 't']
  else if c = '\r' then ['\\', 'r']
  else if c = '\x08' then ['\\', 'b']
  else if c = '\x0c' then ['\\', 'f']
  else if c.toNat < 32 then
    ['\\', 'u', '0', '0', hexDigitChar (c.toNat / 16), hexDigitChar (c.toNat % 16)]
  else [c]

/-- Serialized JSON string literal including the surrounding quotes. -/
def dumpStrChars (s : String) : List Char :=
  '"' :: s.data.flatMap escapeChar ++ ['"']

/-- Serialized integer (Python prints a leading minus sign for negatives). -/
def intChars (n : Int) : List Char :=
  if n < 0 then '-' :: natChars n.natAbs else natChars n.natAbs

mutual

/-- Serializer for `Json`, following `json.dumps` with its default
separators `", "` and `": "`. -/
def dumpChars : Json → List Char
  | Json.null => ['n', 'u', 'l', 'l']
  | Json.bool true => ['t', 'r', 'u', 'e']
  | Json.bool false => ['f', 'a', 'l', 's', 'e']
  | Json.num n => intChars n
  | Json.str s => dumpStrChars s
  | Json.arr elems => '[' :: dumpElems elems ++ [']']
  | Json.obj members => '\x7b' :: dumpMembers members ++ ['\x7d']
termination_by structural j => j

/-- Serialized array elements, `", "`-separated. -/
def dumpElems : List Json → List Char
  | [] => []
  | [x] => dumpChars x
  | x :: y :: rest => dumpChars x ++ ',' :: ' ' :: dumpElems (y :: rest)
termination_by structural l => l

/-- Serialized object members, `", "`-separated, `": "` after each key. -/
def dumpMembers : List (String × Json) → List Char
  | [] => []
  | [(k, v)] => dumpStrChars k ++ ':' :: ' ' :: dumpChars v
  | (k, v) :: m :: rest =>
      dumpStrChars k ++ ':' :: ' ' :: dumpChars v ++ ',' :: ' ' :: dumpMembers (m :: rest)
termination_by structural m => m

end

/-- Model of Python `json.dumps`. -/
def pyJsonDumps (j : Json) : String :=
  String.mk (dumpChars j)

/-- Leading JSON whitespace removal. -/
def skipWs (cs : List Char) : List Char :=
  cs.dropWhile isJsonWs

/-- Value of one hexadecimal digit character. -/
def hexVal (c : Char) : Option Nat :=
  if 48 ≤ c.toNat && c.toNat ≤ 57 then some (c.toNat - 48)
  else if 97 ≤ c.toNat && c.toNat ≤ 102 then some (c.toNat - 87)
  else if 65 ≤ c.toNat && c.toNat ≤ 70 then some (c.toNat - 55)
  else none

/-- Decimal digit test. -/
def isDigitCh (c : Char) : Bool :=
  48 ≤ c.toNat && c.toNat ≤ 57

/-- Body of a JSON string literal after the opening quote: strict mode of
`json.loads` (raw control characters below 0x20 are rejected, only the
standard escapes are recognized).  The accumulator holds the decoded
characters in reverse. -/
def parseStrBody : List Char → List Char → Option (String × List Char)
  | [], _ => none
  | c :: r, acc =>
    if c = '"' then some (String.mk acc.reverse, r)
    else if c = '\\' then
      match r with
      | [] => none
      | e :: r2 =>
        if e = '"' then parseStrBody r2 ('"' :: acc)
        else if e = '\\' then parseStrBody r2 ('\\' :: acc)
        else if e = '/' then parseStrBody r2 ('/' :: acc)
        else if e = 'n' then parseStrBody r2 ('\n' :: acc)
        else if e = 't' then parseStrBody r2 ('\t' :: acc)
        else if e = 'r' then parseStrBody r2 ('\r' :: acc)
        else if e = 'b' then parseStrBody r2 ('\x08' :: acc)
        else if e = 'f' then parseStrBody r2 ('\x0c' :: acc)
        else if e = 'u' then
          match r2 with
          | h1 :: h2 :: h3 :: h4 :: r3 =>
            match hexVal h1, hexVal h2, hexVal h3, hexVal h4 with
            | some a, some b, some c0, some d =>
                parseStrBody r3 (Char.ofNat (((a * 16 + b) * 16 + c0) * 16 + d) :: acc)
            | _, _, _, _ => none
          | _ => none
        else none
    else if c.toNat < 32 then none
    else parseStrBody r (c :: acc)

/-- JSON string literal including the opening quote. -/
def parseStrRaw : List Char → Option (String × List Char)
  | [] => none
  | c :: r => if c = '"' then parseStrBody r [] else none

/-- Numeric value of a digit string (most significant first). -/
def digitsVal (ds : List Char) : Nat :=
  ds.foldl (fun a c => a * 10 + (c.toNat - 48)) 0

/-- Natural-number literal: a lone `0`, or a nonzero leading digit followed
by further digits (JSON rejects leading zeros, so after `0` no digits are
consumed). -/
def parseNatNum : List Char → Option (Nat × List Char)
  | [] => none
  | c :: r =>
      if c = '0' then some (0, r)
      else if isDigitCh c then
        some (digitsVal ((c :: r).takeWhile isDigitCh), (c :: r).dropWhile isDigitCh)
      else none

/-- Integer literal with optional leading minus sign. -/
def parseNumber : List Char → Option (Json × List Char)
  | [] => none
  | c :: r =>
      if c = '-' then (parseNatNum r).map (fun p => (Json.num (-(p.1 : Int)), p.2))
      else (parseNatNum (c :: r)).map (fun p => (Json.num (p.1 : Int), p.2))

mutual

/-- Recursive-descent JSON value parser with an explicit recursion budget,
modelling `json.loads`.  Returns the parsed value and the unconsumed
suffix. -/
def parseVal : Nat → List Char → Option (Json × List Char)
  | 0, _ => none
  | fuel + 1, cs =>
    match skipWs cs with
    | [] => none
    | c :: rest =>
      if c = '\x7b' then
        match skipWs rest with
        | [] => none
        | c2 :: r2 =>
          if c2 = '\x7d' then some (Json.obj [], r2)
          else (parseMembers fuel (c2 :: r2)).map (fun p => (Json.obj p.1, p.2))
      else if c = '[' then
        match skipWs rest with
        | [] => none
        | c2 :: r2 =>
          if c2 = ']' then some (Json.arr [], r2)
          else (parseElems fuel (c2 :: r2)).map (fun p => (Json.arr p.1, p.2))
      else if c = '"' then
        (parseStrBody rest []).map (fun p => (Json.str p.1, p.2))
      else if c = 't' then
        match rest with
        | 'r' :: 'u' :: 'e' :: r => some (Json.bool true, r)
        | _ => none
      else if c = 'f' then
        match rest with
        | 'a' :: 'l' :: 's' :: 'e' :: r => some (Json.bool false, r)
        | _ => none
      else if c = 'n' then
        match rest with
        | 'u' :: 'l' :: 'l' :: r => some (Json.null, r)
        | _ => none
      else parseNumber (c :: rest)

/-- One or more `"key": value` members, starting at the first key's quote,
up to and including the closing brace. -/
def parseMembers : Nat → List Char → Option (List (String × Json) × List Char)
  | 0, _ => none
  | fuel + 1, cs =>
    match parseStrRaw cs with
    | none => none
    | some (k, cs1) =>
      match skipWs cs1 with
      | [] => none
      | c2 :: cs2 =>
        if c2 = ':' then
          match parseVal fuel cs2 with
          | none => none
          | some (v, cs3) =>
            match skipWs cs3 with
            | [] => none
            | c3 :: cs4 =>
              if c3 = ',' then
                (parseMembers fuel (skipWs cs4)).map (fun p => ((k, v) :: p.1, p.2))
              else if c3 = '\x7d' then some ([(k, v)], cs4)
              else none
        else none

/-- One or more array elements up to and including the closing bracket. -/
def parseElems : Nat → List Char → Option (List Json × List Char)
  | 0, _ => none
  | fuel + 1, cs =>
    match parseVal fuel cs with
    | none => none
    | some (v, cs1) =>
      match skipWs cs1 with
      | [] => none
      | c2 :: cs2 =>
        if c2 = ',' then (parseElems fuel cs2).map (fun p => (v :: p.1, p.2))
        else if c2 = ']' then some ([v], cs2)
        else none

end

/-- Model of Python `json.loads`: parse one value, then require that only
whitespace remains (otherwise Python raises "Extra data").  The budget
`2 * length + 4` dominates the recursion depth of any successful parse. -/
def pyJsonLoads (s : String) : Option Json :=
  match parseVal (2 * s.length + 4) s.data with
  | some (j, rest) => if (skipWs rest).isEmpty then some j else none
  | none => none

/-- Attempted match of the regex `"(?:essay|text)":\s*"([^"]+)"` anchored at
the current position: the literal key, a colon, optional whitespace, then a
quoted nonempty run of non-quote characters.  Returns capture group 1. -/
def essayTextMatchAt (cs : List Char) : Option (List Char) :=
  let afterKey : Option (List Char) :=
    if ('"' :: 'e' :: 's' :: 's' :: 'a' :: 'y' :: '"' :: ':' :: []).isPrefixOf cs then
      some (cs.drop 8)
    else if ('"' :: 't' :: 'e' :: 'x' :: 't' :: '"' :: ':' :: []).isPrefixOf cs then
      some (cs.drop 7)
    else none
  match afterKey with
  | none => none
  | some rest =>
    match rest.dropWhile isPyWs with
    | '"' :: body =>
      let grp := body.takeWhile (fun c => c ≠ '"')
      if grp.isEmpty then none
      else match body.dropWhile (fun c => c ≠ '"') with
        | '"' :: _ => some grp
        | _ => none
    | _ => none

/-- Leftmost match of `re.search` with the pattern above: try every start
position from the left. -/
def essayTextSearch (cs : List Char) : Option (List Char) :=
  match cs with
  | [] => none
  | _ :: t =>
    match essayTextMatchAt cs with
    | some g => some g
    | none => essayTextSearch t

/-- Model of `re.sub` with pattern `(?<!\\)"` and replacement `\"`: every
double quote whose preceding character in the original text is not a
backslash gains a backslash.  The `prev` argument carries the previous
original character. -/
def escapeUnescapedQuotes (prev : Option Char) (cs : List Char) : List Char :=
  match cs with
  | [] => []
  | c :: t =>
    if c = '"' && prev ≠ some '\\' then '\\' :: '"' :: escapeUnescapedQuotes (some c) t
    else c :: escapeUnescapedQuotes (some c) t

/-- Model of `re.sub` with pattern `,\s*([\]}])` and replacement `\1`: a
comma followed by optional whitespace and a closing bracket or brace is
replaced by that bracket, scanning left to right over non-overlapping
matches. -/
def removeTrailingCommasAux : Nat → List Char → List Char
  | 0, cs => cs
  | fuel + 1, cs =>
    match cs with
    | [] => []
    | ',' :: t =>
      (match t.dropWhile isPyWs with
      | ']' :: t2 => ']' :: removeTrailingCommasAux fuel t2
      | '\x7d' :: t2 => '\x7d' :: removeTrailingCommasAux fuel t2
      | _ => ',' :: removeTrailingCommasAux fuel t)
    | c :: t => c :: removeTrailingCommasAux fuel t

/-- Entry point of the trailing-comma removal; the budget `cs.length`
dominates the scan, which consumes at least one character per step. -/
def removeTrailingCommas (cs : List Char) : List Char :=
  removeTrailingCommasAux cs.length cs

/-- First-character test, Python `str.startswith` with a one-character needle. -/
def strHeadIs (s : String) (c : Char) : Bool :=
  match s.data with
  | [] => false
  | x :: _ => x = c

/-- Last-character test, Python `str.endswith` with a one-character needle. -/
def strLastIs (s : String) (c : Char) : Bool :=
  match s.data.getLast? with
  | some x => x = c
  | none => false

/-- Key membership in a parsed JSON object, Python `"k" in json_obj`. -/
def hasKey (members : List (String × Json)) (k : String) : Bool :=
  members.any (fun p => p.1 = k)

/-- The check `isinstance(json_obj, dict) and "score" in json_obj and
"feedback" in json_obj` from `clean_response_text` and `run_agent`. -/
def isScoreFeedbackDict (j : Json) : Bool :=
  match j with
  | Json.obj m => hasKey m "score" && hasKey m "feedback"
  | _ => false

/-- Fallback literal returned by `clean_response_text` when the final parse
fails. -/
def parseErrorFallback : String :=
  "\x7b\"score\": 0, \"feedback\": \"Error parsing response.\"\x7d"

/-- The double-decoding block of `clean_response_text`: one `json.loads`
attempt, a second one if the first produced a string, and the
`json.dumps` re-serialization when the resulting Python value is not a
string.  Returns the string the subsequent regex fixes operate on. -/
def cleanDecodePhase (cleaned : String) : String :=
  match pyJsonLoads cleaned with
  | none => cleaned
  | some (Json.str s1) =>
    (match pyJsonLoads s1 with
     | none => s1
     | some (Json.str s2) => s2
     | some j2 => pyJsonDumps j2)
  | some j => pyJsonDumps j

/-- Stages of `clean_response_text` after the early well-formed-object
return was not taken: double decode, quote escaping, trailing-comma
removal, final parse with fixed fallback. -/
def cleanRepairPhase (cleaned : String) : String :=
  let v := cleanDecodePhase cleaned
  let esc := String.mk (escapeUnescapedQuotes none v.data)
  let noComma := String.mk (removeTrailingCommas esc.data)
  match pyJsonLoads noComma with
  | some j => pyJsonDumps j
  | none => parseErrorFallback

/-- Model of `clean_response_text` from `script.py` on string input (the
non-string branch of the Python function is outside a `String`-typed
embedding): strip, function-wrapper extraction, early return of an
already well-formed `score`/`feedback` object, then the best-effort
repair pipeline. -/
def clean_response_text (text : String) : String :=
  let stripped := pyStrip text
  let cleaned :=
    if pyContains stripped "parameters" then
      match essayTextSearch stripped.data with
      | some g => String.mk g
      | none => stripped
    else stripped
  if strHeadIs cleaned '\x7b' && strLastIs cleaned '\x7d' then
    match pyJsonLoads cleaned with
    | some j => if isScoreFeedbackDict j then pyJsonDumps j else cleanRepairPhase cleaned
    | none => cleanRepairPhase cleaned
  else cleanRepairPhase cleaned

/-- Fallback feedback object returned by `run_agent` after its retries are
exhausted. -/
def fallback_feedback : Json :=
  Json.obj [("score", Json.num 0), ("feedback", Json.str "Fallback response due to JSON error.")]

/-- One attempt of `run_agent`'s loop body over the outcome of
`send_post_request`: `none` models a transport failure or a server body
without a `response` field (both raise the caught `ValueError`), `some
txt` the extracted response text.  The attempt yields `some parsed` when
the repaired text parses to a dict containing `score` and `feedback`
keys, otherwise `none` (the caught `JSONDecodeError`/`ValueError`). -/
def attempt_result (outcome : Option String) : Option Json :=
  match outcome with
  | none => none
  | some txt =>
    let feedback_text := clean_response_text (pyStrip txt)
    match pyJsonLoads feedback_text with
    | none => none
    | some j => if isScoreFeedbackDict j then some j else none

/-- Retry loop of `run_agent`: `attempt` is the current index, the second
argument the remaining iterations of `range(max_retries)`.  Returns the
resolved feedback object together with the chronological list of backoff
sleeps (`2 ** attempt` seconds each). -/
def run_agent_aux (outcomes : Nat → Option String) : Nat → Nat → Json × List Nat
  | _, 0 => (fallback_feedback, [])
  | attempt, remaining + 1 =>
    match attempt_result (outcomes attempt) with
    | some j => (j, [])
    | none =>
      if remaining = 0 then (fallback_feedback, [])
      else
        let rec_result := run_agent_aux outcomes (attempt + 1) remaining
        (rec_result.1, 2 ^ attempt :: rec_result.2)

/-- Model of `run_agent` with `max_retries = 3`: the generation-service
outcome of each attempt is supplied by the oracle `outcomes`. -/
def run_agent (outcomes : Nat → Option String) : Json × List Nat :=
  run_agent_aux outcomes 0 3

/-- Python truthiness of a JSON value (`bool(x)` as used by `x or y`). -/
def pyTruthy (j : Json) : Bool :=
  match j with
  | Json.null => false
  | Json.bool b => b
  | Json.num n => n ≠ 0
  | Json.str s => s ≠ ""
  | Json.arr l => !l.isEmpty
  | Json.obj m => !m.isEmpty

/-- Python `a or b` on JSON values. -/
def pyOr (a b : Json) : Json :=
  if pyTruthy a then a else b

/-- Python `dict.get(k, dflt)` on a parsed JSON object (non-objects never
occur at the call sites; they fall back to the default). -/
def dictGet (j : Json) (k : String) (dflt : Json) : Json :=
  match j with
  | Json.obj m =>
    match m.find? (fun p => p.1 = k) with
    | some p => p.2
    | none => dflt
  | _ => dflt

/-- Python `+` on JSON values: numeric addition, sequence concatenation,
`none` for the `TypeError` cases. -/
def pyAdd (a b : Json) : Option Json :=
  match a, b with
  | Json.num m, Json.num n => some (Json.num (m + n))
  | Json.str s, Json.str t => some (Json.str (s ++ t))
  | Json.arr l, Json.arr r => some (Json.arr (l ++ r))
  | _, _ => none

/-- Default object guarding each `run_agent(...) or default_feedback` call
in `grade_response`. -/
def default_feedback : Json :=
  Json.obj [("score", Json.num 0), ("feedback", Json.str "No response generated.")]

/-- Result dictionary built by `grade_response`. -/
structure FinalFeedback where
  feedback_1_score : Json
  feedback_1_feedback : Json
  feedback_2_score : Json
  feedback_2_feedback : Json
  feedback_3_score : Json
  feedback_3_feedback : Json
  feedback_4_score : Json
  feedback_4_feedback : Json
  total_score : Json

/-- Model of `grade_response`'s agent-aggregation phase: the four agent
slots run with their own generation-service oracles, each guarded by `or
default_feedback`, scores and feedback are read with `.get`, and the
total is the left-associated Python sum of the four scores (`none`
models the `TypeError` raised when the scores do not add). -/
def grade_response (o1 o2 o3 o4 : Nat → Option String) : Option FinalFeedback :=
  let f1 := pyOr (run_agent o1).1 default_feedback
  let f2 := pyOr (run_agent o2).1 default_feedback
  let f3 := pyOr (run_agent o3).1 default_feedback
  let f4 := pyOr (run_agent o4).1 default_feedback
  let s1 := dictGet f1 "score" (Json.num 0)
  let s2 := dictGet f2 "score" (Json.num 0)
  let s3 := dictGet f3 "score" (Json.num 0)
  let s4 := dictGet f4 "score" (Json.num 0)
  match pyAdd s1 s2 with
  | none => none
  | some t12 =>
    match pyAdd t12 s3 with
    | none => none
    | some t123 =>
      match pyAdd t123 s4 with
      | none => none
      | some total =>
        some
          { feedback_1_score := s1
            feedback_1_feedback := dictGet f1 "feedback" (Json.str "No feedback.")
            feedback_2_score := s2
            feedback_2_feedback := dictGet f2 "feedback" (Json.str "No feedback.")
            feedback_3_score := s3
            feedback_3_feedback := dictGet f3 "feedback" (Json.str "No feedback.")
            feedback_4_score := s4
            feedback_4_feedback := dictGet f4 "feedback" (Json.str "No feedback.")
            total_score := total }

/-- Model of `determine_categories` from `script.py`: case-insensitive
keyword scan; the Python function collects matches in a `set`, modelled
here as a duplicate-free list in the fixed order of the `if` chain. -/
def determine_categories (response : String) : List String :=
  let lower := pyLower response
  let matched :=
    (if pyContains lower "segmentation" then ["Market Segmentation"] else []) ++
    (if pyContains lower "targeting" then ["Targeting"] else []) ++
    (if pyContains lower "differentiation" || pyContains lower "positioning" then
      ["Differentiation & Positioning"] else []) ++
    (if pyContains lower "pricing" || pyContains lower "product" then
      ["Marketing Mix (4Ps)"] else [])
  if matched.isEmpty then ["Marketing Strategy & Planning"] else matched

/-- Keys of the `categories` dictionary of `get_category_embeddings` and of
`structured_knowledge` in `categorize_extracted_text`, in insertion
order. -/
def category_names : List String :=
  ["Market Segmentation", "Targeting", "Differentiation & Positioning",
   "Marketing Mix (4Ps)", "Marketing Strategy & Planning"]

/-- Python `min(category_embeddings.keys(), key=...)`: fold over the keys in
dictionary insertion order, replacing the current best only on a strictly
smaller distance, so the first key attaining the minimum wins.  The
cosine distances computed by the external embedding model enter as the
oracle `dist`. -/
def best_category (dist : String → ℚ) : String :=
  match category_names with
  | [] => ""
  | c :: rest => rest.foldl (fun b x => if dist x < dist b then x else b) c

/-- Exclusion filter of `categorize_extracted_text`: a chunk containing the
case-insensitive substring `"case study"` whose length exceeds 800
characters is skipped. -/
def is_excluded_chunk (chunk : String) : Bool :=
  pyContains (pyLower chunk) "case study" && chunk.length > 800

/-- Loop of `categorize_extracted_text` over the chunks, threading the
`structured_knowledge` dictionary (modelled as a function from category
name to its chunk list; all five keys start at `[]`). -/
def categorizeAux (dist : String → String → ℚ) :
    List String → (String → List String) → (String → List String)
  | [], st => st
  | chunk :: rest, st =>
    if is_excluded_chunk chunk then categorizeAux dist rest st
    else
      let best := best_category (dist chunk)
      categorizeAux dist rest (fun cat => if cat = best then st cat ++ [chunk] else st cat)

/-- Model of `categorize_extracted_text` from `rag_pipeline.py`, applied to
the already-split chunks: the text splitter and the embedding model are
external, so the chunk list and the chunk-to-category cosine distances
are parameters. -/
def categorize_extracted_text (dist : String → String → ℚ)
    (chunks : List String) : String → List String :=
  categorizeAux dist chunks (fun _ => [])

/-- Keyword set of the prioritization filter in `retrieve_relevant_text`. -/
def prioritization_steps : List String :=
  ["segmentation", "targeting", "differentiation", "positioning"]

/-- Model of `retrieve_relevant_text` from `rag_pipeline.py`.  The first
argument is the result of `load_faiss_indices`: `none` models a missing
indices file or an unpicklable one, `some indices` the loaded
topic-to-index dictionary, each index abstracted to its similarity-search
function returning document texts for a query. -/
def retrieve_relevant_text (store : Option (List (String × (String → List String))))
    (query category : String) : List String :=
  match store with
  | none => []
  | some indices =>
    if indices.isEmpty then []
    else
      match indices.find? (fun p => p.1 = category) with
      | none => []
      | some entry =>
        let retrieved_docs := entry.2 query
        let prioritized := retrieved_docs.filter
          (fun doc => prioritization_steps.all (fun step => pyContains (pyLower doc) step))
        if prioritized.isEmpty then retrieved_docs else prioritized

/-- Distinct failure exits of `load_course_materials`, one per `raise`
site (Python raises `ValueError` for three of them, told apart by
message). -/
inductive ExtractError where
  | emptyPath : ExtractError
  | notFound : ExtractError
  | isADirectory : ExtractError
  | unsupportedFormat : ExtractError
  | emptyExtraction : ExtractError
deriving DecidableEq

/-- Filesystem oracle for `load_course_materials`: existence and
directory tests plus the text produced by the three format-specific
readers (whose own I/O errors are environment failures outside this
embedding). -/
structure PyFs where
  pathExists : String → Bool
  isDir : String → Bool
  readPdf : String → String
  readDocx : String → String
  readTxt : String → String

/-- Model of `os.path.splitext(path)[1]`: the extension starts at the last
dot of the final path component, except that a component consisting of
leading dots only has no extension. -/
def splitextExt (path : String) : String :=
  let base := (path.data.reverse.takeWhile (fun c => c ≠ '/')).reverse
  let rev := base.reverse
  match rev.dropWhile (fun c => c ≠ '.') with
  | [] => ""
  | _ :: beforeRev =>
    if beforeRev.all (fun c => c = '.') then ""
    else String.mk ('.' :: (rev.takeWhile (fun c => c ≠ '.')).reverse)

/-- Extension dispatch of `load_course_materials`
(`os.path.splitext(file_path)[1].lower()` followed by the `elif` chain);
`none` is the `Unsupported file format` branch. -/
def extract_by_extension (fs : PyFs) (file_path : String) : Option String :=
  let file_extension := pyLower (splitextExt file_path)
  if file_extension = ".pdf" then some (fs.readPdf file_path)
  else if file_extension = ".docx" then some (fs.readDocx file_path)
  else if file_extension = ".txt" then some (fs.readTxt file_path)
  else none

/-- Model of `load_course_materials` from `rag_pipeline.py`: guard chain
(empty path, missing path, directory), extension dispatch, and the
blank-extraction check `not extracted_text or len(extracted_text.strip()) == 0`. -/
def load_course_materials (fs : PyFs) (file_path : String) : Except ExtractError String :=
  if file_path = "" then Except.error ExtractError.emptyPath
  else if !fs.pathExists file_path then Except.error ExtractError.notFound
  else if fs.isDir file_path then Except.error ExtractError.isADirectory
  else
    match extract_by_extension fs file_path with
    | none => Except.error ExtractError.unsupportedFormat
    | some extracted_text =>
      if extracted_text = "" || (pyStrip extracted_text).length = 0 then
        Except.error ExtractError.emptyExtraction
      else Except.ok extracted_text

/-- Filesystem effects relevant to index persistence. -/
inductive FsOp where
  | makedirs (dir : String) : FsOp
  | openWrite (path : String) : FsOp
  | writeChunk : FsOp
  | closeFile : FsOp
  | rename (src dst : String) : FsOp
deriving DecidableEq

/-- Model of `os.path.dirname`: everything before the last separator. -/
def pyDirname (path : String) : String :=
  match path.data.reverse.dropWhile (fun c => c ≠ '/') with
  | [] => ""
  | _ :: beforeRev => String.mk beforeRev.reverse

/-- Filesystem trace of `create_faiss_indices` from `rag_pipeline.py`: the
directory is created, then the pickle is written through a handle opened
directly on `indices_path` (`open(indices_path, "wb")`), with
`write_ops` buffer writes before the close.  The in-memory FAISS
construction performs no filesystem operations. -/
def create_faiss_indices_trace (indices_path : String) (write_ops : Nat) : List FsOp :=
  FsOp.makedirs (pyDirname indices_path) :: FsOp.openWrite indices_path ::
    (List.replicate write_ops FsOp.writeChunk ++ [FsOp.closeFile])

/-- Modelled from the spec: the write-to-temp-then-rename persistence
discipline the spec asserts for the index set (the concrete atomic-save
code is not part of the repository): every write handle is opened on a
path other than the final one, and some such temporary path is renamed
onto the final path. -/
def atomic_persist_via_temp_rename (trace : List FsOp) (final_path : String) : Prop :=
  (∀ p, FsOp.openWrite p ∈ trace → p ≠ final_path) ∧
  (∃ tmp, tmp ≠ final_path ∧ FsOp.openWrite tmp ∈ trace ∧ FsOp.rename tmp final_path ∈ trace)

/-- Direct in-place write: the final path itself is opened for writing and
no rename is involved. -/
def writes_directly (trace : List FsOp) (final_path : String) : Prop :=
  FsOp.openWrite final_path ∈ trace ∧ ∀ src dst, FsOp.rename src dst ∉ trace

/-- Filesystem oracle on which nothing exists, for concrete instantiation. -/
def absent_fs : PyFs :=
  ⟨fun _ => false, fun _ => false, fun _ => "", fun _ => "", fun _ => ""⟩

/-- Filesystem oracle where every path exists, `"dir"` is a directory, PDF
and DOCX files read as fixed texts and TXT files as blanks. -/
def sample_fs : PyFs :=
  ⟨fun _ => true, fun p => p = "dir", fun _ => "pdf text", fun _ => "docx text", fun _ => "  "⟩

/-! Theorems.  Each claim of the specification review is settled by one
theorem below; shared facts are factored into helper lemmas. -/

/-- C1: when all three attempts fail (transport failure or a response that
fails validation), `run_agent` sleeps exactly twice — 1 second after the
first failed attempt, 2 seconds after the second — and returns the fixed
fallback object; a response that validates on the first attempt is
returned with no retry and no sleep. -/
theorem run_agent_backoff_and_fallback (outcomes : Nat → Option String) :
    ((∀ i, i < 3 → attempt_result (outcomes i) = none) →
      run_agent outcomes = (fallback_feedback, [1, 2])) ∧
    ∀ j, attempt_result (outcomes 0) = some j → run_agent outcomes = (j, []) := by
  constructor
  · intro h
    have h0 := h 0 (by omega)
    have h1 := h 1 (by omega)
    have h2 := h 2 (by omega)
    simp [run_agent, run_agent_aux, h0, h1, h2]
  · intro j hj
    simp [run_agent, run_agent_aux, hj]

/-- Witness for C1: three transport failures give the fallback after sleeps
of 1 and 2 seconds, and the well-formed literal response is accepted on the
first attempt with no sleep. -/
theorem run_agent_backoff_and_fallback_witness :
    run_agent (fun _ => none) = (fallback_feedback, [1, 2]) ∧
    run_agent (fun _ => some "\x7b\"score\": 25, \"feedback\": \"Good structure.\"\x7d") =
      (Json.obj [("score", Json.num 25), ("feedback", Json.str "Good structure.")], []) :=
  ⟨(run_agent_backoff_and_fallback (fun _ => none)).1 (fun _ _ => rfl),
   (run_agent_backoff_and_fallback
      (fun _ => some "\x7b\"score\": 25, \"feedback\": \"Good structure.\"\x7d")).2 _ rfl⟩

/-- Validation outcome of one attempt: acceptance yields exactly the parsed
object and requires the key-presence check to pass. -/
theorem attempt_result_some_iff (txt : String) (j : Json) :
    attempt_result (some txt) = some j ↔
      pyJsonLoads (clean_response_text (pyStrip txt)) = some j ∧
        isScoreFeedbackDict j = true := by
  rcases hpl : pyJsonLoads (clean_response_text (pyStrip txt)) with _ | j2
  · simp [attempt_result, hpl]
  · by_cases hc : isScoreFeedbackDict j2 = true
    · simp only [attempt_result, hpl, if_pos hc, Option.some.injEq]
      constructor
      · rintro rfl
        exact ⟨rfl, hc⟩
      · rintro ⟨h, _⟩
        exact h
    · simp only [attempt_result, hpl, if_neg hc, Option.some.injEq]
      constructor
      · intro h
        exact absurd h (by simp)
      · rintro ⟨rfl, hcj⟩
        exact absurd hcj hc

/-- C5 (amended): an attempt accepts the repaired response exactly when it
parses to an object containing a `score` key and a `feedback` key; the
types of the two values are not validated. -/
theorem run_agent_validation_checks_presence_only (txt : String) :
    (∀ m : List (String × Json),
      pyJsonLoads (clean_response_text (pyStrip txt)) = some (Json.obj m) →
      hasKey m "score" = true → hasKey m "feedback" = true →
      attempt_result (some txt) = some (Json.obj m)) ∧
    ∀ j, attempt_result (some txt) = some j → isScoreFeedbackDict j = true := by
  constructor
  · intro m hp hs hf
    exact (attempt_result_some_iff txt (Json.obj m)).mpr
      ⟨hp, by simp [isScoreFeedbackDict, hs, hf]⟩
  · intro j hj
    exact ((attempt_result_some_iff txt j).mp hj).2

/-- Counterexample for C5: the literal response whose `score` is the string
`"x"` and whose `feedback` is the number `5` is accepted on the first
attempt (no retry), although the score is not integer-like and the
feedback is not a string. -/
theorem run_agent_accepts_untyped_score_feedback :
    run_agent (fun _ => some "\x7b\"score\": \"x\", \"feedback\": 5\x7d") =
      (Json.obj [("score", Json.str "x"), ("feedback", Json.num 5)], []) ∧
    (∀ n : Int, Json.str "x" ≠ Json.num n) ∧ (∀ s : String, Json.num 5 ≠ Json.str s) :=
  ⟨rfl, fun _ h => Json.noConfusion h, fun _ h => Json.noConfusion h⟩

/-- Witness for C5: instance of the acceptance direction at the same
literal. -/
theorem run_agent_validation_checks_presence_only_witness :
    attempt_result (some "\x7b\"score\": \"x\", \"feedback\": 5\x7d") =
      some (Json.obj [("score", Json.str "x"), ("feedback", Json.num 5)]) :=
  (run_agent_validation_checks_presence_only "\x7b\"score\": \"x\", \"feedback\": 5\x7d").1
    [("score", Json.str "x"), ("feedback", Json.num 5)] rfl rfl rfl

/-- C6: retrieval returns the empty list, without error, when no index set
was loaded (`none`, covering a missing or corrupt pickle) or when the
topic has no entry in the loaded set. -/
theorem retrieve_relevant_text_absent_empty
    (store : Option (List (String × (String → List String)))) (query category : String) :
    (store = none ∨
      ∀ indices, store = some indices → indices.find? (fun p => p.1 = category) = none) →
    retrieve_relevant_text store query category = [] := by
  intro h
  rcases store with _ | indices
  · rfl
  · rcases h with h | h
    · exact absurd h (by simp)
    · have hfind := h indices rfl
      simp [retrieve_relevant_text, hfind]

/-- Witness for C6: a missing index set and a loaded set without the topic
both give the empty result. -/
theorem retrieve_relevant_text_absent_empty_witness :
    retrieve_relevant_text none "essay text" "Targeting" = [] ∧
    retrieve_relevant_text (some [("Targeting", fun _ => ["doc"])]) "essay text"
      "Market Segmentation" = [] :=
  ⟨retrieve_relevant_text_absent_empty none "essay text" "Targeting" (Or.inl rfl),
   retrieve_relevant_text_absent_empty (some [("Targeting", fun _ => ["doc"])]) "essay text"
     "Market Segmentation" (Or.inr (fun _ hi => by cases hi; rfl))⟩

/-- C7: topic selection scans the response case-insensitively for the fixed
keyword families and returns the non-empty duplicate-free set of matched
topics, with the catch-all topic exactly when nothing matches; a response
containing only `pricing` maps to the marketing-mix topic alone, the
empty response to the catch-all alone. -/
theorem determine_categories_keyword_mapping :
    (∀ s, determine_categories s ≠ [] ∧ (determine_categories s).Nodup ∧
      ("Market Segmentation" ∈ determine_categories s ↔
        pyContains (pyLower s) "segmentation" = true) ∧
      ("Targeting" ∈ determine_categories s ↔ pyContains (pyLower s) "targeting" = true) ∧
      ("Differentiation & Positioning" ∈ determine_categories s ↔
        (pyContains (pyLower s) "differentiation" = true ∨
          pyContains (pyLower s) "positioning" = true)) ∧
      ("Marketing Mix (4Ps)" ∈ determine_categories s ↔
        (pyContains (pyLower s) "pricing" = true ∨ pyContains (pyLower s) "product" = true)) ∧
      ("Marketing Strategy & Planning" ∈ determine_categories s ↔
        (pyContains (pyLower s) "segmentation" = false ∧
         pyContains (pyLower s) "targeting" = false ∧
         pyContains (pyLower s) "differentiation" = false ∧
         pyContains (pyLower s) "positioning" = false ∧
         pyContains (pyLower s) "pricing" = false ∧
         pyContains (pyLower s) "product" = false))) ∧
    determine_categories "pricing" = ["Marketing Mix (4Ps)"] ∧
    determine_categories "" = ["Marketing Strategy & Planning"] := by
  refine ⟨fun s => ?_, rfl, rfl⟩
  cases h1 : pyContains (pyLower s) "segmentation" <;>
    cases h2 : pyContains (pyLower s) "targeting" <;>
      cases h3 : pyContains (pyLower s) "differentiation" <;>
        cases h4 : pyContains (pyLower s) "positioning" <;>
          cases h5 : pyContains (pyLower s) "pricing" <;>
            cases h6 : pyContains (pyLower s) "product" <;>
              simp [determine_categories, h1, h2, h3, h4, h5, h6]

/-- C9 (amended): single-file extraction with a non-empty path fails with
the not-found error when the path does not exist, the is-a-directory
error on a directory, the unsupported-format error on an unrecognized
extension (exactly when the lower-cased extension is none of `.pdf`,
`.docx`, `.txt`), the empty-extraction error when the dispatched text is
blank after stripping, and otherwise returns the extracted text; the
empty path is rejected by a distinct empty-path error before the
existence check. -/
theorem load_course_materials_error_cases (fs : PyFs) (p : String) :
    (p ≠ "" → fs.pathExists p = false →
      load_course_materials fs p = Except.error ExtractError.notFound) ∧
    (p ≠ "" → fs.pathExists p = true → fs.isDir p = true →
      load_course_materials fs p = Except.error ExtractError.isADirectory) ∧
    (extract_by_extension fs p = none ↔
      pyLower (splitextExt p) ∉ ([".pdf", ".docx", ".txt"] : List String)) ∧
    (p ≠ "" → fs.pathExists p = true → fs.isDir p = false → extract_by_extension fs p = none →
      load_course_materials fs p = Except.error ExtractError.unsupportedFormat) ∧
    (∀ t, p ≠ "" → fs.pathExists p = true → fs.isDir p = false →
      extract_by_extension fs p = some t → (pyStrip t).length = 0 →
      load_course_materials fs p = Except.error ExtractError.emptyExtraction) ∧
    (∀ t, p ≠ "" → fs.pathExists p = true → fs.isDir p = false →
      extract_by_extension fs p = some t → (pyStrip t).length ≠ 0 →
      load_course_materials fs p = Except.ok t) ∧
    (p = "" → load_course_materials fs p = Except.error ExtractError.emptyPath) := by
  refine ⟨?_, ?_, ?_, ?_, ?_, ?_, ?_⟩
  · intro hne hex
    simp [load_course_materials, hne, hex]
  · intro hne hex hdir
    simp [load_course_materials, hne, hex, hdir]
  · unfold extract_by_extension
    by_cases h1 : pyLower (splitextExt p) = ".pdf" <;>
      by_cases h2 : pyLower (splitextExt p) = ".docx" <;>
        by_cases h3 : pyLower (splitextExt p) = ".txt" <;>
          simp [h1, h2, h3]
  · intro hne hex hdir hdisp
    simp [load_course_materials, hne, hex, hdir, hdisp]
  · intro t hne hex hdir hdisp hblank
    simp [load_course_materials, hne, hex, hdir, hdisp, hblank]
  · intro t hne hex hdir hdisp hblank
    have ht : t ≠ "" := by
      intro h
      subst h
      exact hblank rfl
    simp [load_course_materials, hne, hex, hdir, hdisp, hblank, ht]
  · intro h
    simp [load_course_materials, h]

/-- Witness for C9: each branch at a concrete filesystem and path. -/
theorem load_course_materials_error_cases_witness :
    load_course_materials absent_fs "nope.pdf" = Except.error ExtractError.notFound ∧
    load_course_materials sample_fs "dir" = Except.error ExtractError.isADirectory ∧
    load_course_materials sample_fs "a.xyz" = Except.error ExtractError.unsupportedFormat ∧
    load_course_materials sample_fs "b.txt" = Except.error ExtractError.emptyExtraction ∧
    load_course_materials sample_fs "c.PDF" = Except.ok "pdf text" :=
  ⟨(load_course_materials_error_cases absent_fs "nope.pdf").1 (by decide) rfl,
   (load_course_materials_error_cases sample_fs "dir").2.1 (by decide) rfl rfl,
   (load_course_materials_error_cases sample_fs "a.xyz").2.2.2.1 (by decide) rfl rfl rfl,
   (load_course_materials_error_cases sample_fs "b.txt").2.2.2.2.1 "  " (by decide) rfl rfl rfl rfl,
   (load_course_materials_error_cases sample_fs "c.PDF").2.2.2.2.2.1 "pdf text" (by decide) rfl rfl
     rfl (by decide)⟩

/-- Counterexample for C9: the empty path does not exist, yet extraction
rejects it with the empty-path error, not the not-found error the claim
specifies for non-existent paths. -/
theorem load_course_materials_empty_path_error :
    absent_fs.pathExists "" = false ∧
    load_course_materials absent_fs "" = Except.error ExtractError.emptyPath ∧
    ExtractError.emptyPath ≠ ExtractError.notFound :=
  ⟨rfl, rfl, by decide⟩

/-- C8 (amended): index-set persistence opens the final path itself for
writing and performs no rename, so a crash or concurrent read between
the open and the close — a cut of the trace containing the former but
not the latter — observes a partially written set. -/
theorem create_faiss_indices_writes_in_place (path : String) (n : Nat) :
    writes_directly (create_faiss_indices_trace path n) path ∧
    ∃ k, k < (create_faiss_indices_trace path n).length ∧
      FsOp.openWrite path ∈ (create_faiss_indices_trace path n).take k ∧
      FsOp.closeFile ∉ (create_faiss_indices_trace path n).take k := by
  refine ⟨⟨?_, ?_⟩, 2, ?_, ?_, ?_⟩
  · simp [create_faiss_indices_trace]
  · intro src dst hmem
    simp [create_faiss_indices_trace, List.mem_replicate] at hmem
  · simp only [create_faiss_indices_trace, List.length_cons, List.length_append,
      List.length_replicate, List.length_singleton]
    omega
  · simp [create_faiss_indices_trace, List.take]
  · simp [create_faiss_indices_trace, List.take]

/-- Counterexample for C8: the concrete trace of one save is not of the
write-to-temp-then-rename shape, because the final path itself is opened
for writing. -/
theorem create_faiss_indices_not_atomic :
    ¬ atomic_persist_via_temp_rename
        (create_faiss_indices_trace "uploads/prof_sean/indices/faiss_index.pkl" 1)
        "uploads/prof_sean/indices/faiss_index.pkl" := by
  rintro ⟨hopen, -⟩
  exact hopen "uploads/prof_sean/indices/faiss_index.pkl"
    (by simp [create_faiss_indices_trace]) rfl

/-- Python `min(category_embeddings.keys(), key=...)` selects a key of
minimum distance, and on ties the key that comes first in dictionary
insertion order. -/
theorem best_category_spec (f : String → ℚ) :
    best_category f ∈ category_names ∧
    (∀ c ∈ category_names, f (best_category f) ≤ f c) ∧
    (∀ c ∈ category_names, f c ≤ f (best_category f) →
      category_names.indexOf (best_category f) ≤ category_names.indexOf c) := by
  have hb : best_category f =
      List.foldl (fun b x => if f x < f b then x else b) "Market Segmentation"
        ["Targeting", "Differentiation & Positioning", "Marketing Mix (4Ps)",
         "Marketing Strategy & Planning"] := rfl
  rw [hb]
  simp only [List.foldl]
  split_ifs <;>
    refine ⟨by decide, fun c hc => ?_, fun c hc hle => ?_⟩ <;>
      simp only [category_names, List.mem_cons, List.not_mem_nil, or_false] at hc <;>
        rcases hc with rfl | rfl | rfl | rfl | rfl <;>
          first
            | linarith
            | decide

/-- Unfolding of the classification loop: each topic's list is the initial
state followed by the input-order filter of the non-excluded chunks
whose nearest topic is that topic. -/
theorem categorizeAux_apply (dist : String → String → ℚ) (chunks : List String)
    (st : String → List String) (cat : String) :
    categorizeAux dist chunks st cat =
      st cat ++ chunks.filter
        (fun c => !is_excluded_chunk c && (best_category (dist c) == cat)) := by
  induction chunks generalizing st with
  | nil => simp [categorizeAux]
  | cons c t ih =>
    by_cases hex : is_excluded_chunk c
    · simp [categorizeAux, hex, List.filter_cons, ih]
    · by_cases hbc : best_category (dist c) = cat
      · simp [categorizeAux, hex, ih, List.filter_cons, hbc]
      · simp [categorizeAux, hex, ih, List.filter_cons, hbc, Ne.symm hbc]

/-- Membership form of the characterization for the public entry point. -/
theorem categorize_mem_iff (dist : String → String → ℚ) (chunks : List String)
    (chunk cat : String) :
    chunk ∈ categorize_extracted_text dist chunks cat ↔
      chunk ∈ chunks ∧ is_excluded_chunk chunk = false ∧
        best_category (dist chunk) = cat := by
  unfold categorize_extracted_text
  rw [categorizeAux_apply]
  simp [List.mem_filter, and_assoc]

/-- C3 (amended): every chunk placed by the classifier lands in the topic
of minimum cosine distance among the five categories, where a tie breaks
to the topic earliest in the classifier's fixed category insertion order
(Market Segmentation, Targeting, Differentiation & Positioning,
Marketing Mix (4Ps), Marketing Strategy & Planning) — not to the
lexicographically first name. -/
theorem classifier_assigns_nearest_topic (dist : String → String → ℚ)
    (chunks : List String) (chunk cat : String) :
    chunk ∈ categorize_extracted_text dist chunks cat →
      cat = best_category (dist chunk) ∧
      cat ∈ category_names ∧
      (∀ c ∈ category_names, dist chunk cat ≤ dist chunk c) ∧
      (∀ c ∈ category_names, dist chunk c ≤ dist chunk cat →
        category_names.indexOf cat ≤ category_names.indexOf c) := by
  intro hmem
  obtain ⟨-, -, hbest⟩ := (categorize_mem_iff dist chunks chunk cat).mp hmem
  obtain ⟨hm, hmin, hfirst⟩ := best_category_spec (dist chunk)
  subst hbest
  exact ⟨rfl, hm, hmin, hfirst⟩

/-- Witness for C3: instance of the nearest-topic property at a concrete
distance oracle under which the second category is strictly nearest. -/
theorem classifier_assigns_nearest_topic_witness :
    "Targeting" = best_category ((fun _ c => if c = "Targeting" then (0 : ℚ) else 5) "chunk") ∧
    (∀ c ∈ category_names,
      (fun _ c => if c = "Targeting" then (0 : ℚ) else 5) "chunk" "Targeting" ≤
        (fun _ c => if c = "Targeting" then (0 : ℚ) else 5) "chunk" c) :=
  ⟨(classifier_assigns_nearest_topic (fun _ c => if c = "Targeting" then (0 : ℚ) else 5)
      ["chunk"] "chunk" "Targeting" (by decide)).1,
   (classifier_assigns_nearest_topic (fun _ c => if c = "Targeting" then (0 : ℚ) else 5)
      ["chunk"] "chunk" "Targeting" (by decide)).2.2.1⟩

/-- Counterexample for C3: with all five distances equal, the chunk is
assigned to Market Segmentation, the first key in insertion order,
although Differentiation & Positioning attains the same minimal distance
and is lexicographically first. -/
theorem categorize_tie_not_lexicographic :
    categorize_extracted_text (fun _ _ => (0 : ℚ)) ["intro to marketing"]
      "Market Segmentation" = ["intro to marketing"] ∧
    categorize_extracted_text (fun _ _ => (0 : ℚ)) ["intro to marketing"]
      "Differentiation & Positioning" = [] ∧
    "Differentiation & Positioning" < "Market Segmentation" ∧
    "Differentiation & Positioning" ∈ category_names ∧
    (fun _ : String => (0 : ℚ)) "Differentiation & Positioning" =
      (fun _ : String => (0 : ℚ)) "Market Segmentation" := by
  refine ⟨by decide, by decide, ?_, by decide, rfl⟩
  rw [String.lt_iff_toList_lt]
  decide

/-- C4: chunks containing the case-insensitive substring `"case study"`
with more than 800 characters are absent from every topic list; every
other chunk of the input appears in exactly one topic's list; and each
topic's list is a sublist of the input, so chunks appear there in input
order. -/
theorem classifier_partition (dist : String → String → ℚ) (chunks : List String) :
    (∀ chunk ∈ chunks, pyContains (pyLower chunk) "case study" = true → chunk.length > 800 →
      ∀ cat, chunk ∉ categorize_extracted_text dist chunks cat) ∧
    (∀ chunk ∈ chunks,
      (pyContains (pyLower chunk) "case study" = false ∨ ¬chunk.length > 800) →
      ∃! cat, chunk ∈ categorize_extracted_text dist chunks cat) ∧
    ∀ cat, (categorize_extracted_text dist chunks cat).Sublist chunks := by
  refine ⟨?_, ?_, ?_⟩
  · intro chunk _ hcs hlen cat hmem
    obtain ⟨-, hexcl, -⟩ := (categorize_mem_iff dist chunks chunk cat).mp hmem
    rw [is_excluded_chunk, hcs] at hexcl
    simp at hexcl
    omega
  · intro chunk hchunk hnot
    have hexcl : is_excluded_chunk chunk = false := by
      rw [is_excluded_chunk]
      rcases hnot with h | h
      · simp [h]
      · simp [h]
    refine ⟨best_category (dist chunk),
      (categorize_mem_iff dist chunks chunk _).mpr ⟨hchunk, hexcl, rfl⟩, ?_⟩
    intro cat hcat
    exact ((categorize_mem_iff dist chunks chunk cat).mp hcat).2.2.symm
  · intro cat
    unfold categorize_extracted_text
    rw [categorizeAux_apply]
    simp only [List.nil_append]
    exact List.filter_sublist chunks

set_option maxRecDepth 20000 in
/-- Witness for C4: a long case study is excluded from every topic while a
short chunk is placed in exactly one topic. -/
theorem classifier_partition_witness :
    (String.mk (List.replicate 795 'a') ++ "case study") ∉
      categorize_extracted_text (fun _ _ => (0 : ℚ))
        [String.mk (List.replicate 795 'a') ++ "case study", "short case study"]
        "Market Segmentation" ∧
    ∃! cat, "short case study" ∈
      categorize_extracted_text (fun _ _ => (0 : ℚ))
        [String.mk (List.replicate 795 'a') ++ "case study", "short case study"] cat :=
  ⟨(classifier_partition (fun _ _ => (0 : ℚ)) _).1 _ (List.mem_cons_self _ _) (by decide)
      (by decide) "Market Segmentation",
   (classifier_partition (fun _ _ => (0 : ℚ)) _).2.1 "short case study"
      (by simp) (Or.inr (by decide))⟩

/-- Acceptance in one attempt implies the key-presence check passed. -/
theorem attempt_result_shape (o : Option String) (j : Json)
    (h : attempt_result o = some j) : isScoreFeedbackDict j = true := by
  rcases o with _ | txt
  · exact absurd h (by simp [attempt_result])
  · exact ((attempt_result_some_iff txt j).mp h).2

/-- A non-empty key list means key membership can hold. -/
theorem hasKey_ne_nil {m : List (String × Json)} {k : String}
    (h : hasKey m k = true) : m ≠ [] := by
  intro hnil
  subst hnil
  simp [hasKey] at h

/-- Every exit of the retry loop yields an object containing both a
`score` and a `feedback` key. -/
theorem run_agent_aux_shape (o : Nat → Option String) :
    ∀ remaining attempt, ∃ m, (run_agent_aux o attempt remaining).1 = Json.obj m ∧
      hasKey m "score" = true ∧ hasKey m "feedback" = true := by
  intro remaining
  induction remaining with
  | zero =>
    intro attempt
    exact ⟨[("score", Json.num 0),
      ("feedback", Json.str "Fallback response due to JSON error.")], rfl, rfl, rfl⟩
  | succ rem ih =>
    intro attempt
    rcases hres : attempt_result (o attempt) with _ | j
    · by_cases hrem : rem = 0
      · subst hrem
        exact ⟨[("score", Json.num 0),
          ("feedback", Json.str "Fallback response due to JSON error.")],
          by simp [run_agent_aux, hres, fallback_feedback], rfl, rfl⟩
      · obtain ⟨m, hm, hs, hf⟩ := ih (attempt + 1)
        exact ⟨m, by simp [run_agent_aux, hres, hrem, hm], hs, hf⟩
    · have hshape := attempt_result_shape _ _ hres
      rcases j with _ | b | n | s | l | m
      · exact absurd hshape (by simp [isScoreFeedbackDict])
      · exact absurd hshape (by simp [isScoreFeedbackDict])
      · exact absurd hshape (by simp [isScoreFeedbackDict])
      · exact absurd hshape (by simp [isScoreFeedbackDict])
      · exact absurd hshape (by simp [isScoreFeedbackDict])
      · rw [isScoreFeedbackDict, Bool.and_eq_true] at hshape
        exact ⟨m, by simp [run_agent_aux, hres], hshape.1, hshape.2⟩

/-- Shape of every `run_agent` result: an object carrying both keys. -/
theorem run_agent_shape (o : Nat → Option String) :
    ∃ m, (run_agent o).1 = Json.obj m ∧
      hasKey m "score" = true ∧ hasKey m "feedback" = true :=
  run_agent_aux_shape o 3 0

/-- The dict returned by `run_agent` is truthy, so `or default_feedback`
keeps it. -/
theorem pyOr_run_agent (o : Nat → Option String) (d : Json) :
    pyOr (run_agent o).1 d = (run_agent o).1 := by
  obtain ⟨m, hm, hs, -⟩ := run_agent_shape o
  rw [pyOr, hm, if_pos]
  simp [pyTruthy, List.isEmpty_iff, hasKey_ne_nil hs]

/-- C10: `run_agent` always returns an object containing both a `score`
and a `feedback` key (never `None` or a non-dict), so the `or
default_feedback` guards in `grade_response` never fire, and the
reported total is exactly the Python sum of the four returned agents'
score values. -/
theorem grade_response_shape_and_total (o1 o2 o3 o4 : Nat → Option String) :
    (∀ o : Nat → Option String, ∃ m, (run_agent o).1 = Json.obj m ∧
      hasKey m "score" = true ∧ hasKey m "feedback" = true ∧
      pyTruthy (run_agent o).1 = true) ∧
    pyOr (run_agent o1).1 default_feedback = (run_agent o1).1 ∧
    pyOr (run_agent o2).1 default_feedback = (run_agent o2).1 ∧
    pyOr (run_agent o3).1 default_feedback = (run_agent o3).1 ∧
    pyOr (run_agent o4).1 default_feedback = (run_agent o4).1 ∧
    ∀ res, grade_response o1 o2 o3 o4 = some res →
      ∃ t12 t123,
        pyAdd (dictGet (run_agent o1).1 "score" (Json.num 0))
          (dictGet (run_agent o2).1 "score" (Json.num 0)) = some t12 ∧
        pyAdd t12 (dictGet (run_agent o3).1 "score" (Json.num 0)) = some t123 ∧
        pyAdd t123 (dictGet (run_agent o4).1 "score" (Json.num 0)) = some res.total_score := by
  refine ⟨?_, pyOr_run_agent o1 _, pyOr_run_agent o2 _, pyOr_run_agent o3 _,
    pyOr_run_agent o4 _, ?_⟩
  · intro o
    obtain ⟨m, hm, hs, hf⟩ := run_agent_shape o
    refine ⟨m, hm, hs, hf, ?_⟩
    rw [hm]
    simp [pyTruthy, List.isEmpty_iff, hasKey_ne_nil hs]
  · intro res hres
    simp only [grade_response, pyOr_run_agent o1, pyOr_run_agent o2, pyOr_run_agent o3,
      pyOr_run_agent o4] at hres
    rcases h12 : pyAdd (dictGet (run_agent o1).1 "score" (Json.num 0))
        (dictGet (run_agent o2).1 "score" (Json.num 0)) with _ | t12 <;>
      rw [h12] at hres <;> dsimp only at hres
    · exact absurd hres (by simp)
    · rcases h123 : pyAdd t12 (dictGet (run_agent o3).1 "score" (Json.num 0)) with _ | t123 <;>
        rw [h123] at hres <;> dsimp only at hres
      · exact absurd hres (by simp)
      · rcases h1234 : pyAdd t123 (dictGet (run_agent o4).1 "score" (Json.num 0)) with _ | tot <;>
          rw [h1234] at hres <;> dsimp only at hres
        · exact absurd hres (by simp)
        · cases hres
          exact ⟨t12, t123, rfl, h123, h1234⟩

/-- Witness for C10: four all-failing agents resolve to the fallback and a
total of zero. -/
theorem grade_response_shape_and_total_witness :
    ∃ t12 t123,
      pyAdd (dictGet (run_agent (fun _ => none)).1 "score" (Json.num 0))
        (dictGet (run_agent (fun _ => none)).1 "score" (Json.num 0)) = some t12 ∧
      pyAdd t12 (dictGet (run_agent (fun _ => none)).1 "score" (Json.num 0)) = some t123 ∧
      pyAdd t123 (dictGet (run_agent (fun _ => none)).1 "score" (Json.num 0)) =
        some (Json.num 0) :=
  (grade_response_shape_and_total (fun _ => none) (fun _ => none) (fun _ => none)
      (fun _ => none)).2.2.2.2.2
    { feedback_1_score := Json.num 0
      feedback_1_feedback := Json.str "Fallback response due to JSON error."
      feedback_2_score := Json.num 0
      feedback_2_feedback := Json.str "Fallback response due to JSON error."
      feedback_3_score := Json.num 0
      feedback_3_feedback := Json.str "Fallback response due to JSON error."
      feedback_4_score := Json.num 0
      feedback_4_feedback := Json.str "Fallback response due to JSON error."
      total_score := Json.num 0 } rfl

/-! Serializer-parser agreement.  The lemmas below establish that
`pyJsonLoads` recovers every value produced by `pyJsonDumps`, which is
what makes the repair pipeline of `clean_response_text` total. -/

/-- Numeric bounds carried by the digit test. -/
theorem isDigitCh_bounds {c : Char} (h : isDigitCh c = true) :
    48 ≤ c.toNat ∧ c.toNat ≤ 57 := by
  simpa [isDigitCh, Bool.and_eq_true, decide_eq_true_eq] using h

/-- Digits are not JSON whitespace. -/
theorem digit_not_ws {c : Char} (h : isDigitCh c = true) : isJsonWs c = false := by
  obtain ⟨h1, h2⟩ := isDigitCh_bounds h
  rcases hw : isJsonWs c with _ | _
  · rfl
  · exfalso
    simp only [isJsonWs, Bool.or_eq_true, decide_eq_true_eq] at hw
    rcases hw with ((rfl | rfl) | rfl) | rfl <;> exact absurd h1 (by decide)

/-- Digits are distinct from every dispatch character of the parser. -/
theorem digit_ne_special {c : Char} (h : isDigitCh c = true) :
    c ≠ '\x7b' ∧ c ≠ '[' ∧ c ≠ '"' ∧ c ≠ 't' ∧ c ≠ 'f' ∧ c ≠ 'n' ∧
      c ≠ ']' ∧ c ≠ '\x7d' ∧ c ≠ '-' ∧ c ≠ ',' := by
  obtain ⟨h1, h2⟩ := isDigitCh_bounds h
  refine ⟨?_, ?_, ?_, ?_, ?_, ?_, ?_, ?_, ?_, ?_⟩ <;> intro heq <;> subst heq <;>
    first
      | exact absurd h1 (by decide)
      | exact absurd h2 (by decide)

/-- Value of a digit character. -/
theorem digitChar_toNat {d : Nat} (h : d < 10) : (digitChar d).toNat = 48 + d := by
  interval_cases d <;> rfl

/-- Digit characters pass the digit test. -/
theorem isDigitCh_digitChar {d : Nat} (h : d < 10) : isDigitCh (digitChar d) = true := by
  interval_cases d <;> rfl

/-- Only zero prints as the zero digit. -/
theorem digitChar_eq_zero_iff {d : Nat} (h : d < 10) : digitChar d = '0' ↔ d = 0 := by
  interval_cases d <;> simp <;> decide

/-- The digit-printing budget is irrelevant once it exceeds the argument. -/
theorem natCharsAux_congr : ∀ f1 f2 n, n < f1 → n < f2 → natCharsAux f1 n = natCharsAux f2 n := by
  intro f1
  induction f1 with
  | zero => intro f2 n h _; omega
  | succ k ih =>
    intro f2 n h1 h2
    cases f2 with
    | zero => omega
    | succ m =>
      simp only [natCharsAux]
      by_cases h10 : n < 10
      · simp [h10]
      · have hdiv : n / 10 < n := Nat.div_lt_self (by omega) (by omega)
        simp only [if_neg h10]
        rw [ih m (n / 10) (by omega) (by omega)]

/-- Recursion equation of the decimal printer. -/
theorem natChars_unfold (n : Nat) :
    natChars n = if n < 10 then [digitChar n] else natChars (n / 10) ++ [digitChar (n % 10)] := by
  have hstep : natCharsAux (n + 1) n =
      if n < 10 then [digitChar n] else natCharsAux n (n / 10) ++ [digitChar (n % 10)] := rfl
  unfold natChars
  rw [hstep]
  by_cases h10 : n < 10
  · simp [h10]
  · have hdiv : n / 10 < n := Nat.div_lt_self (by omega) (by omega)
    rw [if_neg h10, if_neg h10]
    congr 1
    exact natCharsAux_congr n (n / 10 + 1) (n / 10) (by omega) (by omega)

/-- All printed decimal characters are digits. -/
theorem natChars_all_digits (n : Nat) : ∀ c ∈ natChars n, isDigitCh c = true := by
  induction n using Nat.strong_induction_on with
  | _ n ih =>
    rw [natChars_unfold]
    by_cases h10 : n < 10
    · simp only [if_pos h10, List.mem_singleton]
      rintro c rfl
      exact isDigitCh_digitChar h10
    · have hdiv : n / 10 < n := Nat.div_lt_self (by omega) (by omega)
      simp only [if_neg h10, List.mem_append, List.mem_singleton]
      rintro c (hc | rfl)
      · exact ih (n / 10) hdiv c hc
      · exact isDigitCh_digitChar (Nat.mod_lt _ (by omega))

/-- The decimal printer emits at least one character. -/
theorem natChars_ne_nil (n : Nat) : natChars n ≠ [] := by
  rw [natChars_unfold]
  by_cases h10 : n < 10 <;> simp [h10]

/-- A nonzero number prints with a nonzero leading digit. -/
theorem natChars_head (n : Nat) (hn : n ≠ 0) :
    ∃ d ds, natChars n = d :: ds ∧ isDigitCh d = true ∧ d ≠ '0' := by
  induction n using Nat.strong_induction_on with
  | _ n ih =>
    rw [natChars_unfold]
    by_cases h10 : n < 10
    · refine ⟨digitChar n, [], by simp [h10], isDigitCh_digitChar h10, ?_⟩
      intro h
      exact hn ((digitChar_eq_zero_iff h10).mp h)
    · have hdiv : n / 10 < n := Nat.div_lt_self (by omega) (by omega)
      obtain ⟨d, ds, hd, hdig, hd0⟩ := ih (n / 10) hdiv (by omega)
      exact ⟨d, ds ++ [digitChar (n % 10)], by simp [if_neg h10, hd], hdig, hd0⟩

/-- Folding one more digit. -/
theorem digitsVal_append_digit (l : List Char) (c : Char) :
    digitsVal (l ++ [c]) = digitsVal l * 10 + (c.toNat - 48) := by
  simp [digitsVal, List.foldl_append]

/-- The printed digits evaluate back to the number. -/
theorem digitsVal_natChars (n : Nat) : digitsVal (natChars n) = n := by
  induction n using Nat.strong_induction_on with
  | _ n ih =>
    rw [natChars_unfold]
    by_cases h10 : n < 10
    · simp only [if_pos h10, digitsVal, List.foldl_cons, List.foldl_nil,
        digitChar_toNat h10]
      omega
    · have hdiv : n / 10 < n := Nat.div_lt_self (by omega) (by omega)
      rw [if_neg h10, digitsVal_append_digit, ih (n / 10) hdiv,
        digitChar_toNat (Nat.mod_lt _ (by omega))]
      omega

/-- Take-while over a block that satisfies the predicate. -/
theorem takeWhile_append_all {p : Char → Bool} {l1 l2 : List Char}
    (h : ∀ x ∈ l1, p x = true) :
    (l1 ++ l2).takeWhile p = l1 ++ l2.takeWhile p := by
  induction l1 with
  | nil => simp
  | cons c t ih =>
    have hc := h c (List.mem_cons_self _ _)
    simp only [List.cons_append, List.takeWhile_cons, hc, if_pos]
    rw [ih (fun x hx => h x (List.mem_cons_of_mem _ hx))]

/-- Drop-while over a block that satisfies the predicate. -/
theorem dropWhile_append_all {p : Char → Bool} {l1 l2 : List Char}
    (h : ∀ x ∈ l1, p x = true) :
    (l1 ++ l2).dropWhile p = l2.dropWhile p := by
  induction l1 with
  | nil => simp
  | cons c t ih =>
    have hc := h c (List.mem_cons_self _ _)
    simp only [List.cons_append, List.dropWhile_cons, hc, if_pos]
    exact ih (fun x hx => h x (List.mem_cons_of_mem _ hx))

/-- A suffix whose head fails the predicate is untouched by take/drop-while. -/
theorem takeWhile_head_false {p : Char → Bool} {l : List Char}
    (h : ∀ d ds, l = d :: ds → p d = false) :
    l.takeWhile p = [] ∧ l.dropWhile p = l := by
  cases l with
  | nil => simp
  | cons d ds => simp [List.takeWhile_cons, List.dropWhile_cons, h d ds rfl]

/-- The natural-number literal parser recovers every printed number,
provided the remaining text does not begin with a digit. -/
theorem parseNatNum_natChars (n : Nat) (rest : List Char)
    (hrest : ∀ d ds, rest = d :: ds → isDigitCh d = false) :
    parseNatNum (natChars n ++ rest) = some (n, rest) := by
  by_cases hn : n = 0
  · subst hn
    have h0 : natChars 0 = ['0'] := by
      rw [natChars_unfold]
      simp only [if_pos (by omega : (0 : Nat) < 10)]
      decide
    rw [h0]
    rfl
  · obtain ⟨d, ds, hd, hdig, hd0⟩ := natChars_head n hn
    rw [hd]
    have halldig : ∀ x ∈ d :: ds, isDigitCh x = true := by
      rw [← hd]
      exact natChars_all_digits n
    obtain ⟨htake, hdrop⟩ := takeWhile_head_false hrest
    simp only [List.cons_append, parseNatNum, if_neg hd0, hdig, if_pos]
    rw [← List.cons_append, takeWhile_append_all halldig, dropWhile_append_all halldig,
      htake, hdrop, List.append_nil, ← hd, digitsVal_natChars]

/-- The leading character of a printed integer. -/
theorem intChars_head (n : Int) :
    ∃ c cs, intChars n = c :: cs ∧ (c = '-' ∨ isDigitCh c = true) := by
  unfold intChars
  by_cases hn : n < 0
  · exact ⟨'-', natChars n.natAbs, by simp [hn], Or.inl rfl⟩
  · rcases hchars : natChars n.natAbs with _ | ⟨d, ds⟩
    · exact absurd hchars (natChars_ne_nil _)
    · refine ⟨d, ds, by simp [hn, hchars], Or.inr ?_⟩
      exact natChars_all_digits _ d (by rw [hchars]; exact List.mem_cons_self _ _)

/-- The integer literal parser recovers every printed integer. -/
theorem parseNumber_intChars (n : Int) (rest : List Char)
    (hrest : ∀ d ds, rest = d :: ds → isDigitCh d = false) :
    parseNumber (intChars n ++ rest) = some (Json.num n, rest) := by
  by_cases hn : n < 0
  · have hic : intChars n = '-' :: natChars n.natAbs := by simp [intChars, hn]
    rw [hic]
    have hval : (-(n.natAbs : Int)) = n := by omega
    simp only [List.cons_append, parseNumber, if_pos rfl,
      parseNatNum_natChars n.natAbs rest hrest]
    simp only [Option.map, if_true]
    rw [show Json.num (-(n.natAbs : Int)) = Json.num n from by rw [hval]]
  · have hic : intChars n = natChars n.natAbs := by simp [intChars, hn]
    rw [hic]
    rcases hchars : natChars n.natAbs with _ | ⟨d, ds⟩
    · exact absurd hchars (natChars_ne_nil _)
    · have hdig : isDigitCh d = true :=
        natChars_all_digits _ d (by rw [hchars]; exact List.mem_cons_self _ _)
      have hdm : d ≠ '-' := (digit_ne_special hdig).2.2.2.2.2.2.2.2.1
      rw [← hchars]
      have hform : natChars n.natAbs ++ rest = d :: (ds ++ rest) := by rw [hchars]; simp
      have hval : ((n.natAbs : Int)) = n := by omega
      rw [hform, parseNumber, if_neg hdm, ← hform, parseNatNum_natChars n.natAbs rest hrest]
      simp [hval]

/-- Hex digits decode to their value. -/
theorem hexVal_hexDigitChar {d : Nat} (h : d < 16) : hexVal (hexDigitChar d) = some d := by
  interval_cases d <;> rfl

/-- One escaped character is decoded back onto the accumulator. -/
theorem parseStrBody_escapeChar (c : Char) (X acc : List Char) :
    parseStrBody (escapeChar c ++ X) acc = parseStrBody X (c :: acc) := by
  unfold escapeChar
  split_ifs with h1 h2 h3 h4 h5 h6 h7 h8
  · subst h1; rw [parseStrBody.eq_def]; simp
  · subst h2; rw [parseStrBody.eq_def]; simp
  · subst h3; rw [parseStrBody.eq_def]; simp
  · subst h4; rw [parseStrBody.eq_def]; simp
  · subst h5; rw [parseStrBody.eq_def]; simp
  · subst h6; rw [parseStrBody.eq_def]; simp
  · subst h7; rw [parseStrBody.eq_def]; simp
  · have ha : c.toNat / 16 < 16 := by omega
    have hb : c.toNat % 16 < 16 := by omega
    simp only [List.cons_append, List.nil_append]
    rw [parseStrBody.eq_def]
    simp only [hexVal_hexDigitChar ha, hexVal_hexDigitChar hb]
    have hv : c.toNat / 16 * 16 + c.toNat % 16 = c.toNat := by omega
    simp [show hexVal '0' = some 0 from rfl, hv, Char.ofNat_toNat]
  · simp only [List.cons_append, List.nil_append]
    rw [parseStrBody.eq_def]
    simp [h1, h2, h8]

/-- The escaped body of a string literal decodes to the original characters. -/
theorem parseStrBody_flatMap (l : List Char) : ∀ acc rest : List Char,
    parseStrBody (l.flatMap escapeChar ++ '"' :: rest) acc =
      some (String.mk (acc.reverse ++ l), rest) := by
  induction l with
  | nil =>
    intro acc rest
    rw [List.flatMap_nil, List.nil_append, parseStrBody.eq_def]
    simp
  | cons c t ih =>
    intro acc rest
    rw [List.flatMap_cons, List.append_assoc, parseStrBody_escapeChar, ih]
    simp

/-- The string-literal parser recovers every serialized string. -/
theorem parseStrRaw_dump (s : String) (rest : List Char) :
    parseStrRaw (dumpStrChars s ++ rest) = some (s, rest) := by
  obtain ⟨sdata⟩ := s
  show parseStrRaw (('"' :: (sdata.flatMap escapeChar ++ ['"'])) ++ rest) = _
  rw [List.cons_append, List.append_assoc, List.singleton_append]
  show parseStrBody (sdata.flatMap escapeChar ++ '"' :: rest) [] = _
  rw [parseStrBody_flatMap]
  simp

/-- Whitespace skipping stops at a non-whitespace head. -/
theorem skipWs_cons_not_ws {c : Char} {t : List Char} (h : isJsonWs c = false) :
    skipWs (c :: t) = c :: t := by
  simp [skipWs, List.dropWhile_cons, h]

/-- Whitespace skipping consumes a whitespace head. -/
theorem skipWs_cons_ws {c : Char} {t : List Char} (h : isJsonWs c = true) :
    skipWs (c :: t) = skipWs t := by
  simp [skipWs, List.dropWhile_cons, h]

/-- The value parser ignores leading whitespace. -/
theorem parseVal_ws_cons (f : Nat) (c : Char) (t : List Char) (h : isJsonWs c = true) :
    parseVal f (c :: t) = parseVal f t := by
  cases f with
  | zero => rfl
  | succ f => rw [parseVal.eq_2, skipWs_cons_ws h, ← parseVal.eq_2]

/-- The element parser ignores leading whitespace, through `parseVal`. -/
theorem parseElems_ws_cons (f : Nat) (c : Char) (t : List Char) (h : isJsonWs c = true) :
    parseElems (f + 1) (c :: t) = parseElems (f + 1) t := by
  rw [parseElems.eq_2, parseVal_ws_cons f c t h, ← parseElems.eq_2]

/-- Every serialized value begins with a character that is neither
whitespace nor a closing delimiter. -/
theorem dumpChars_head (j : Json) :
    ∃ c cs, dumpChars j = c :: cs ∧ isJsonWs c = false ∧ c ≠ ']' ∧ c ≠ '\x7d' := by
  cases j with
  | null => exact ⟨'n', _, rfl, by decide⟩
  | bool b =>
    rcases b with _ | _
    · exact ⟨'f', _, rfl, by decide⟩
    · exact ⟨'t', _, rfl, by decide⟩
  | num n =>
    obtain ⟨c, cs, hc, hcls⟩ := intChars_head n
    refine ⟨c, cs, by rw [dumpChars, hc], ?_, ?_, ?_⟩
    · rcases hcls with rfl | hd
      · decide
      · exact digit_not_ws hd
    · rcases hcls with rfl | hd
      · decide
      · exact (digit_ne_special hd).2.2.2.2.2.2.1
    · rcases hcls with rfl | hd
      · decide
      · exact (digit_ne_special hd).2.2.2.2.2.2.2.1
  | str s => exact ⟨'"', _, rfl, by decide⟩
  | arr l => exact ⟨'[', _, rfl, by decide⟩
  | obj m => exact ⟨'\x7b', _, rfl, by decide⟩

/-- Serialized member lists begin with the opening quote of the first key. -/
theorem dumpMembers_head (k : String) (v : Json) (ps : List (String × Json)) :
    ∃ Y, dumpMembers ((k, v) :: ps) = '"' :: Y := by
  cases ps with
  | nil => exact ⟨_, rfl⟩
  | cons q qs => exact ⟨_, rfl⟩

/-- Every serialized value is at least one character long. -/
theorem dumpChars_length_pos (j : Json) : 1 ≤ (dumpChars j).length := by
  obtain ⟨c, cs, hc, -, -, -⟩ := dumpChars_head j
  rw [hc]
  simp

/-- A serialized string literal is at least two characters long. -/
theorem dumpStrChars_length (s : String) : 2 ≤ (dumpStrChars s).length := by
  show 2 ≤ ('"' :: (s.data.flatMap escapeChar ++ ['"'])).length
  simp

/-- Transport of a digit-free head along list equality. -/
theorem head_not_digit_cons {c : Char} (hc : isDigitCh c = false) (t : List Char) :
    ∀ d ds, c :: t = d :: ds → isDigitCh d = false := by
  intro d ds h
  injection h with h1 _
  rw [← h1]
  exact hc

/-- Round trip of the serializer through the parser: with enough budget,
`parseVal` consumes exactly the serialized value and returns it, and the
member and element loops do the same for nonempty serialized objects and
arrays. -/
theorem parse_dump_roundtrip : ∀ fuel : Nat,
    (∀ (j : Json) (rest : List Char), (dumpChars j).length + 1 ≤ fuel →
      (∀ d ds, rest = d :: ds → isDigitCh d = false) →
      parseVal fuel (dumpChars j ++ rest) = some (j, rest)) ∧
    (∀ (kvs : List (String × Json)) (rest : List Char), kvs ≠ [] →
      (dumpMembers kvs).length + 1 ≤ fuel →
      parseMembers fuel (dumpMembers kvs ++ '\x7d' :: rest) = some (kvs, rest)) ∧
    (∀ (l : List Json) (rest : List Char), l ≠ [] →
      (dumpElems l).length + 2 ≤ fuel →
      parseElems fuel (dumpElems l ++ ']' :: rest) = some (l, rest)) := by
  intro fuel
  induction fuel using Nat.strong_induction_on with
  | _ fuel ih =>
    refine ⟨?_, ?_, ?_⟩
    · intro j rest hfuel hrest
      rcases fuel with _ | f
      · omega
      · obtain ⟨hV, hM, hE⟩ := ih f (by omega)
        cases j with
        | null =>
          simp only [dumpChars, List.cons_append, List.nil_append]
          rw [parseVal.eq_2, skipWs_cons_not_ws (by decide)]
          simp
        | bool b =>
          cases b <;>
            simp only [dumpChars, List.cons_append, List.nil_append] <;>
              rw [parseVal.eq_2, skipWs_cons_not_ws (by decide)] <;> simp
        | num n =>
          obtain ⟨c, cs, hc, hcls⟩ := intChars_head n
          have hws : isJsonWs c = false := by
            rcases hcls with rfl | hd
            · decide
            · exact digit_not_ws hd
          have hne : c ≠ '\x7b' ∧ c ≠ '[' ∧ c ≠ '"' ∧ c ≠ 't' ∧ c ≠ 'f' ∧ c ≠ 'n' := by
            rcases hcls with rfl | hd
            · refine ⟨by decide, by decide, by decide, by decide, by decide, by decide⟩
            · obtain ⟨a1, a2, a3, a4, a5, a6, -, -, -, -⟩ := digit_ne_special hd
              exact ⟨a1, a2, a3, a4, a5, a6⟩
          show parseVal (f + 1) (intChars n ++ rest) = some (Json.num n, rest)
          rw [hc, List.cons_append, parseVal.eq_2, skipWs_cons_not_ws hws]
          simp only [if_neg hne.1, if_neg hne.2.1, if_neg hne.2.2.1, if_neg hne.2.2.2.1,
            if_neg hne.2.2.2.2.1, if_neg hne.2.2.2.2.2]
          rw [← List.cons_append, ← hc]
          exact parseNumber_intChars n rest hrest
        | str s =>
          show parseVal (f + 1) (('"' :: (s.data.flatMap escapeChar ++ ['"'])) ++ rest) =
            some (Json.str s, rest)
          rw [List.cons_append, parseVal.eq_2, skipWs_cons_not_ws (by decide)]
          simp only [if_neg (by decide : ¬('"' : Char) = '\x7b'),
            if_neg (by decide : ¬('"' : Char) = '['), if_pos rfl, if_true]
          rw [List.append_assoc, List.singleton_append, parseStrBody_flatMap]
          simp
        | arr l =>
          cases l with
          | nil =>
            simp only [dumpChars, dumpElems, List.cons_append, List.nil_append]
            rw [parseVal.eq_2, skipWs_cons_not_ws (by decide)]
            simp only [if_neg (by decide : ¬('[' : Char) = '\x7b'), if_pos rfl, if_true]
            rw [skipWs_cons_not_ws (by decide)]
            simp
          | cons x xs =>
            obtain ⟨c, cs, hcx, hws, hne1, -⟩ := dumpChars_head x
            have hhdE : ∃ Y, dumpElems (x :: xs) = c :: Y := by
              cases xs with
              | nil => exact ⟨cs, by simp [dumpElems, hcx]⟩
              | cons y ys => exact ⟨cs ++ ',' :: ' ' :: dumpElems (y :: ys),
                  by simp [dumpElems, hcx]⟩
            obtain ⟨Y, hY⟩ := hhdE
            have hlen : (dumpChars (Json.arr (x :: xs))).length =
                (dumpElems (x :: xs)).length + 2 := by
              simp [dumpChars]
            show parseVal (f + 1) (('[' :: (dumpElems (x :: xs) ++ [']'])) ++ rest) =
              some (Json.arr (x :: xs), rest)
            rw [List.cons_append, parseVal.eq_2, skipWs_cons_not_ws (by decide)]
            simp only [if_neg (by decide : ¬('[' : Char) = '\x7b'), if_pos rfl, if_true]
            rw [List.append_assoc, List.singleton_append, hY, List.cons_append,
              skipWs_cons_not_ws hws]
            dsimp only
            rw [if_neg hne1, ← List.cons_append, ← hY,
              hE (x :: xs) rest (by simp) (by omega)]
            rfl
        | obj m =>
          cases m with
          | nil =>
            simp only [dumpChars, dumpMembers, List.cons_append, List.nil_append]
            rw [parseVal.eq_2, skipWs_cons_not_ws (by decide)]
            simp only [if_pos rfl, if_true]
            rw [skipWs_cons_not_ws (by decide)]
            simp
          | cons p ps =>
            obtain ⟨k, v⟩ := p
            obtain ⟨Y, hY⟩ := dumpMembers_head k v ps
            have hlen : (dumpChars (Json.obj ((k, v) :: ps))).length =
                (dumpMembers ((k, v) :: ps)).length + 2 := by
              simp [dumpChars]
            show parseVal (f + 1) (('\x7b' :: (dumpMembers ((k, v) :: ps) ++ ['\x7d'])) ++ rest) =
              some (Json.obj ((k, v) :: ps), rest)
            rw [List.cons_append, parseVal.eq_2, skipWs_cons_not_ws (by decide)]
            simp only [if_pos rfl, if_true]
            rw [List.append_assoc, List.singleton_append, hY, List.cons_append,
              skipWs_cons_not_ws (by decide)]
            dsimp only
            rw [if_neg (by decide : ¬('"' : Char) = '\x7d'),
              ← List.cons_append, ← hY, hM ((k, v) :: ps) rest (by simp) (by omega)]
            rfl
    · intro kvs rest hne hfuel
      rcases fuel with _ | f
      · omega
      · obtain ⟨hV, hM, hE⟩ := ih f (by omega)
        rcases kvs with _ | ⟨⟨k, v⟩, ps⟩
        · exact absurd rfl hne
        · have hks := dumpStrChars_length k
          have hvs := dumpChars_length_pos v
          cases ps with
          | nil =>
            have hlen : (dumpMembers [(k, v)]).length =
                (dumpStrChars k).length + 2 + (dumpChars v).length := by
              simp [dumpMembers]
              omega
            have hform : dumpMembers [(k, v)] ++ '\x7d' :: rest =
                dumpStrChars k ++ (':' :: ' ' :: (dumpChars v ++ '\x7d' :: rest)) := by
              simp [dumpMembers]
            rw [parseMembers.eq_2, hform, parseStrRaw_dump]
            dsimp only
            rw [skipWs_cons_not_ws (by decide)]
            dsimp only
            simp only [if_pos rfl, if_true]
            rw [parseVal_ws_cons f ' ' _ (by decide),
              hV v ('\x7d' :: rest) (by omega) (head_not_digit_cons (by decide) rest)]
            dsimp only
            rw [skipWs_cons_not_ws (by decide)]
            simp
          | cons q qs =>
            obtain ⟨qk, qv⟩ := q
            obtain ⟨Z, hZ⟩ := dumpMembers_head qk qv qs
            have hlen : (dumpMembers ((k, v) :: (qk, qv) :: qs)).length =
                (dumpStrChars k).length + 2 + (dumpChars v).length + 2 +
                  (dumpMembers ((qk, qv) :: qs)).length := by
              simp [dumpMembers]
              omega
            have hform : dumpMembers ((k, v) :: (qk, qv) :: qs) ++ '\x7d' :: rest =
                dumpStrChars k ++ (':' :: ' ' :: (dumpChars v ++
                  ',' :: ' ' :: (dumpMembers ((qk, qv) :: qs) ++ '\x7d' :: rest))) := by
              simp [dumpMembers]
            rw [parseMembers.eq_2, hform, parseStrRaw_dump]
            dsimp only
            rw [skipWs_cons_not_ws (by decide)]
            dsimp only
            simp only [if_pos rfl, if_true]
            rw [parseVal_ws_cons f ' ' _ (by decide),
              hV v _ (by omega) (head_not_digit_cons (by decide) _)]
            dsimp only
            rw [skipWs_cons_not_ws (by decide)]
            dsimp only
            simp only [if_pos rfl, if_true]
            rw [skipWs_cons_ws (by decide), hZ, List.cons_append,
              skipWs_cons_not_ws (by decide), ← List.cons_append, ← hZ,
              hM ((qk, qv) :: qs) rest (by simp) (by omega)]
            rfl
    · intro l rest hne hfuel
      rcases fuel with _ | f
      · omega
      · obtain ⟨hV, hM, hE⟩ := ih f (by omega)
        rcases l with _ | ⟨x, xs⟩
        · exact absurd rfl hne
        · have hxs := dumpChars_length_pos x
          cases xs with
          | nil =>
            have hform : dumpElems [x] ++ ']' :: rest = dumpChars x ++ ']' :: rest := by
              simp [dumpElems]
            rw [parseElems.eq_2, hform,
              hV x (']' :: rest) (by simp [dumpElems] at hfuel; omega)
                (head_not_digit_cons (by decide) rest)]
            dsimp only
            rw [skipWs_cons_not_ws (by decide)]
            simp
          | cons y ys =>
            have hlen : (dumpElems (x :: y :: ys)).length =
                (dumpChars x).length + 2 + (dumpElems (y :: ys)).length := by
              simp [dumpElems]
              omega
            have hform : dumpElems (x :: y :: ys) ++ ']' :: rest =
                dumpChars x ++ (',' :: ' ' :: (dumpElems (y :: ys) ++ ']' :: rest)) := by
              simp [dumpElems]
            rw [parseElems.eq_2, hform,
              hV x _ (by omega) (head_not_digit_cons (by decide) _)]
            dsimp only
            rw [skipWs_cons_not_ws (by decide)]
            dsimp only
            simp only [if_pos rfl, if_true]
            rcases f with _ | f2
            · omega
            · rw [parseElems_ws_cons f2 ' ' _ (by decide),
                hE (y :: ys) rest (by simp) (by omega)]
              rfl

/-- Full round trip through the two Python-level entry points. -/
theorem pyJsonLoads_dumps (j : Json) : pyJsonLoads (pyJsonDumps j) = some j := by
  unfold pyJsonLoads pyJsonDumps
  have hdata : (String.mk (dumpChars j)).data = dumpChars j := rfl
  have hlen : (String.mk (dumpChars j)).length = (dumpChars j).length := rfl
  have hrt := (parse_dump_roundtrip (2 * (dumpChars j).length + 4)).1 j [] (by omega)
    (fun d ds h => by cases h)
  rw [List.append_nil] at hrt
  rw [hdata, hlen, hrt]
  rfl

/-- The final stage of the repair pipeline emits parseable JSON: either the
re-serialization of the final parse or the fixed fallback literal. -/
theorem final_parse_stage_valid (t : String) :
    ∃ j, pyJsonLoads
      (match pyJsonLoads t with
        | some j2 => pyJsonDumps j2
        | none => parseErrorFallback) = some j := by
  rcases h : pyJsonLoads t with _ | j2
  · exact ⟨Json.obj [("score", Json.num 0), ("feedback", Json.str "Error parsing response.")],
      rfl⟩
  · exact ⟨j2, pyJsonLoads_dumps j2⟩

/-- The repair phase of `clean_response_text` always emits parseable JSON. -/
theorem cleanRepairPhase_valid (s : String) :
    ∃ j, pyJsonLoads (cleanRepairPhase s) = some j :=
  final_parse_stage_valid _

/-- The branch structure of `clean_response_text` after the wrapper
extraction emits parseable JSON whatever string reaches it. -/
theorem clean_body_valid (cleaned : String) :
    ∃ j, pyJsonLoads (
      if (strHeadIs cleaned '\x7b' && strLastIs cleaned '\x7d') = true then
        match pyJsonLoads cleaned with
        | some j2 =>
            if isScoreFeedbackDict j2 = true then pyJsonDumps j2
            else cleanRepairPhase cleaned
        | none => cleanRepairPhase cleaned
      else cleanRepairPhase cleaned) = some j := by
  by_cases hbr : (strHeadIs cleaned '\x7b' && strLastIs cleaned '\x7d') = true
  · rw [if_pos hbr]
    rcases hpl : pyJsonLoads cleaned with _ | j2
    · exact cleanRepairPhase_valid cleaned
    · dsimp only
      by_cases hch : isScoreFeedbackDict j2 = true
      · rw [if_pos hch]
        exact ⟨j2, pyJsonLoads_dumps j2⟩
      · rw [if_neg hch]
        exact cleanRepairPhase_valid cleaned
  · rw [if_neg hbr]
    exact cleanRepairPhase_valid cleaned

/-- C2 (amended): `clean_response_text` is total on strings and always
returns a text that parses as JSON — the re-serialization of a parsed
value, or the fixed parse-error fallback object when the final parse
fails; the parsed value, however, is not guaranteed to be an object with
`score` and `feedback` fields. -/
theorem clean_response_text_total_parses :
    (∀ s : String, ∃ j, pyJsonLoads (clean_response_text s) = some j) ∧
    pyJsonLoads parseErrorFallback =
      some (Json.obj [("score", Json.num 0), ("feedback", Json.str "Error parsing response.")]) := by
  constructor
  · intro s
    exact clean_body_valid _
  · rfl

/-- Counterexample for C2: the input `42` is repaired to the bare number
text `42`, which parses to a number, not to an object containing `score`
and `feedback` fields. -/
theorem clean_response_text_returns_bare_number :
    clean_response_text "42" = "42" ∧
    pyJsonLoads (clean_response_text "42") = some (Json.num 42) ∧
    isScoreFeedbackDict (Json.num 42) = false :=
  ⟨rfl, rfl, rfl⟩

end EssayBot
